import Mathlib

/-!
Verification of the varlink Go interface generator
(`cmd/varlink-go-interface-generator/main.go`).

The generator turns a parsed varlink IDL model (interface name, description,
type aliases, methods, error types) into one Go source file: client call and
reply-reader helpers, a server interface, reply methods, default stubs, a
method dispatcher and interface-identity accessors.  Parsing (`idl.New`) and
canonical formatting (`go/format.Source`) are external collaborators; the
model below embeds the generator itself: the recursive type translator
`writeType` and the section-by-section text assembly of `generateTemplate`.

Machine strings are modelled as Lean `String`s; the byte buffer of the Go
code is modelled by string concatenation in the same order as the
`WriteString` calls of the source.
-/

set_option maxHeartbeats 1000000
set_option maxRecDepth 16000

namespace VarlinkGen

/-- Type kinds of the IDL type model (`idl.Type.Kind` in the Go source). -/
inductive Kind where
  | TypeBool
  | TypeInt
  | TypeFloat
  | TypeString
  | TypeEnum
  | TypeObject
  | TypeArray
  | TypeMap
  | TypeMaybe
  | TypeAlias
  | TypeStruct
deriving DecidableEq, Repr

mutual
/-- The IDL type tree (`idl.Type`): a tagged variant with element types for
array/map/maybe, an alias name for alias references, and an ordered field
list for structs. -/
inductive IDLType where
  | tbool
  | tint
  | tfloat
  | tstring
  | tenum
  | tobject
  | tarray (elem : IDLType)
  | tmap (elem : IDLType)
  | tmaybe (elem : IDLType)
  | talias (name : String)
  | tstruct (fields : FieldList)
deriving DecidableEq, Repr

/-- An ordered list of named fields (`idl.Type.Fields`), each a name plus a
type. -/
inductive FieldList where
  | nil
  | cons (name : String) (ty : IDLType) (rest : FieldList)
deriving DecidableEq, Repr
end

/-- The kind tag of a type node (the `Kind` field of `idl.Type`). -/
def kind : IDLType → Kind
  | .tbool => .TypeBool
  | .tint => .TypeInt
  | .tfloat => .TypeFloat
  | .tstring => .TypeString
  | .tenum => .TypeEnum
  | .tobject => .TypeObject
  | .tarray _ => .TypeArray
  | .tmap _ => .TypeMap
  | .tmaybe _ => .TypeMaybe
  | .talias _ => .TypeAlias
  | .tstruct _ => .TypeStruct

/-- The field list of a type (`t.Fields` in Go; empty for non-struct nodes). -/
def fieldsOf : IDLType → FieldList
  | .tstruct fs => fs
  | _ => .nil

/-- Emptiness test for a field list (`len(t.Fields) == 0` in Go). -/
def FieldList.isEmpty : FieldList → Bool
  | .nil => true
  | .cons _ _ _ => false

/-- The reserved words of Go (the `goKeywords` table of the source). -/
def goKeywords : List String :=
  ["break", "case", "chan", "const", "continue", "default", "defer", "else",
   "fallthrough", "for", "func", "go", "goto", "if", "import", "interface",
   "map", "package", "range", "return", "select", "struct", "switch", "type",
   "var"]

/-- The function `sanitizeGoName`: a name colliding with a Go reserved word is suffixed
with an underscore; any other name is returned unchanged. -/
def sanitizeGoName (name : String) : String :=
  if goKeywords.contains name then name ++ "_" else name

/-- ASCII fragment of Go `strings.Title`'s separator test: letters, digits
and underscore are not separators, every other ASCII character is.  (The
generator only applies it to ASCII identifier names; non-ASCII characters
are conservatively treated as non-separators.) -/
def isSeparatorGo (c : Char) : Bool :=
  if c.val ≤ 0x7F then
    !((('a' ≤ c && c ≤ 'z') || ('A' ≤ c && c ≤ 'Z') ||
       ('0' ≤ c && c ≤ '9') || (c = '_')))
  else
    false

/-- Character mapper of Go `strings.Title`: title-case a character that
follows a separator, tracking the previous character. -/
def goTitleAux : Char → List Char → List Char
  | _, [] => []
  | prev, c :: cs =>
      (if isSeparatorGo prev then c.toUpper else c) :: goTitleAux c cs

/-- Go `strings.Title` (ASCII fragment): title-cases the first letter of
each word; the previous-character state starts as a space, so the first
character is always title-cased. -/
def goTitle (s : String) : String :=
  ⟨goTitleAux ' ' s.data⟩

/-- A run of `ident` tab characters, as written by the indentation loops of
`writeType`. -/
def tabs : Nat → String
  | 0 => ""
  | n + 1 => "\t" ++ tabs n

mutual
/-- The type translator `writeType(b, t, json, ident)` of the source,
returning the text it appends to the buffer.  `json = true` is the
wire-tagged mode: struct fields additionally carry a backquoted `json:`
tag holding the original field name, with `,omitempty` when the field's
type kind is Maybe. -/
def writeType (t : IDLType) (json : Bool) (ident : Nat) : String :=
  match t with
  | .tbool => "bool"
  | .tint => "int64"
  | .tfloat => "float64"
  | .tstring => "string"
  | .tenum => "string"
  | .tobject => "json.RawMessage"
  | .tarray e => "[]" ++ writeType e json ident
  | .tmap e => "map[string]" ++ writeType e json ident
  | .tmaybe e => "*" ++ writeType e json ident
  | .talias n => n
  | .tstruct .nil => "struct\x7b\x7d"
  | .tstruct (.cons n ty rest) =>
      "struct \x7b\n" ++ writeFields (.cons n ty rest) json ident ++
      tabs ident ++ "\x7d"

/-- The field loop of `writeType`'s struct case: one line per field with
`ident+1` tabs, the title-cased member name, the recursively rendered field
type, and (in wire mode) the `json:` tag. -/
def writeFields (fs : FieldList) (json : Bool) (ident : Nat) : String :=
  match fs with
  | .nil => ""
  | .cons n ty rest =>
      tabs (ident + 1) ++ goTitle n ++ " " ++ writeType ty json (ident + 1) ++
      (if json then
        " `json:\"" ++ n ++
        (if kind ty = Kind.TypeMaybe then ",omitempty" else "") ++ "\"`"
      else "") ++
      "\n" ++ writeFields rest json ident
end

/-- A type alias declaration of the model (`idl.Alias`). -/
structure IDLAlias where
  name : String
  ty : IDLType
deriving DecidableEq, Repr

/-- A method of the model (`idl.Method`): a name plus input and output
struct types. -/
structure Method where
  name : String
  In : IDLType
  Out : IDLType
deriving DecidableEq, Repr

/-- An error type of the model (`idl.Error`): a name plus the struct type
of the fields carried with the error reply. -/
structure IDLError where
  name : String
  ty : IDLType
deriving DecidableEq, Repr

/-- The parsed interface model handed to the generator by the external
parser `idl.New` (name, description, aliases, methods, errors). -/
structure IDL where
  name : String
  description : String
  aliases : List IDLAlias
  methods : List Method
  errors : List IDLError
deriving DecidableEq, Repr

/-- Concatenation of a list of strings, in order; models sequential
`WriteString` calls of a Go loop. -/
def strConcat : List String → String
  | [] => ""
  | s :: rest => s ++ strConcat rest

/-- Go `strings.Replace(s, ".", "", -1)` applied to the interface name: the
derived package name with all dots removed. -/
def stripDots (s : String) : String :=
  ⟨s.data.filter (fun c => c ≠ '.')⟩

/-- Whether `pat` occurs as a contiguous substring of `s`
(`strings.Contains`). -/
def containsStr (s pat : String) : Bool :=
  decide (pat.data <:+: s.data)

/-- Replace the first occurrence of `pat` in the character list by `repl`
(`strings.Replace(s, pat, repl, 1)`); no occurrence leaves the list
unchanged. -/
def replaceFirstAux (pat repl : List Char) : List Char → List Char
  | [] => []
  | c :: rest =>
      if pat.isPrefixOf (c :: rest) then repl ++ (c :: rest).drop pat.length
      else c :: replaceFirstAux pat repl rest

/-- String form of `replaceFirstAux`. -/
def replaceFirst (s pat repl : String) : String :=
  ⟨replaceFirstAux pat.data repl.data s.data⟩

/-! ## Per-field emission loops -/

/-- Input-parameter loop (client call, server interface, stubs): for each
input field, `, <sanitizedName> <plainType>`. -/
def inParams : FieldList → String
  | .nil => ""
  | .cons n ty rest =>
      ", " ++ sanitizeGoName n ++ " " ++ writeType ty false 1 ++ inParams rest

/-- The `switch field.Type.Kind` test of the assignment loops: struct,
array and map kinds get an explicit conversion through the type
translator. -/
def needsConv (t : IDLType) : Bool :=
  match kind t with
  | Kind.TypeStruct | Kind.TypeArray | Kind.TypeMap => true
  | _ => false

/-- Client-call body loop: assign each parameter into the wire-tagged
`in` struct, with an explicit conversion for struct/array/map kinds. -/
def inAssigns : FieldList → String
  | .nil => ""
  | .cons n ty rest =>
      (if needsConv ty then
           "\tin." ++ goTitle n ++ " = " ++ writeType ty true 1 ++
           "(" ++ sanitizeGoName n ++ ")\n"
       else
           "\tin." ++ goTitle n ++ " = " ++ sanitizeGoName n ++ "\n") ++
      inAssigns rest

/-- Reply-reader parameter loop: for each output field, an out-pointer
parameter `, <sanitizedName> *<plainType>`. -/
def outPtrParams : FieldList → String
  | .nil => ""
  | .cons n ty rest =>
      ", " ++ sanitizeGoName n ++ " *" ++ writeType ty false 1 ++
      outPtrParams rest

/-- Reply-reader body loop: for each non-nil out-pointer, assign the decoded
field, converting struct/array/map kinds. -/
def outAssigns : FieldList → String
  | .nil => ""
  | .cons n ty rest =>
      "\tif " ++ sanitizeGoName n ++ " != nil \x7b\n" ++
      (if needsConv ty then
           "\t\t*" ++ sanitizeGoName n ++ " = " ++ writeType ty false 2 ++
           " (out." ++ goTitle n ++ ")\n"
       else
           "\t\t*" ++ sanitizeGoName n ++ " = out." ++ goTitle n ++ "\n") ++
      "\t\x7d\n" ++ outAssigns rest

/-- Comma-separated parameter list of the reply methods (`, ` before every
parameter except the first): tail part. -/
def replyParamsRest : FieldList → String
  | .nil => ""
  | .cons n ty rest =>
      ", " ++ sanitizeGoName n ++ " " ++ writeType ty false 1 ++
      replyParamsRest rest

/-- Comma-separated parameter list of the reply methods (`i > 0` comma rule
of the Go loops). -/
def replyParams : FieldList → String
  | .nil => ""
  | .cons n ty rest =>
      sanitizeGoName n ++ " " ++ writeType ty false 1 ++ replyParamsRest rest

/-- Reply-method body loop: set each field of the wire-tagged `out` struct,
converting struct/array/map kinds. -/
def outSets : FieldList → String
  | .nil => ""
  | .cons n ty rest =>
      (if needsConv ty then
           "\tout." ++ goTitle n ++ " = " ++ writeType ty true 1 ++
           "(" ++ sanitizeGoName n ++ ")\n"
       else
           "\tout." ++ goTitle n ++ " = " ++ sanitizeGoName n ++ "\n") ++
      outSets rest

/-- Dispatcher argument loop: pass each decoded input field to the handler,
converting struct/array/map kinds. -/
def dispatchArgs : FieldList → String
  | .nil => ""
  | .cons n ty rest =>
      (if needsConv ty then
           ", " ++ writeType ty false 2 ++ "(in." ++ goTitle n ++ ")"
       else
           ", in." ++ goTitle n) ++
      dispatchArgs rest

/-! ## Section emitters (in the order of the `WriteString` calls) -/

/-- File header: generator banner, package clause and the `@IMPORTS@`
placeholder. -/
def headerSection (pkgname : String) : String :=
  "// Generated with github.com/varlink/go/cmd/varlink-go-interface-generator\n" ++
  "package " ++ pkgname ++ "\n\n" ++ "@IMPORTS@\n\n"

/-- One alias declaration: `type <name> <wireType>`. -/
def aliasDecl (a : IDLAlias) : String :=
  "type " ++ a.name ++ " " ++ writeType a.ty true 0 ++ "\n\n"

/-- Type-declaration section. -/
def aliasSection (aliases : List IDLAlias) : String :=
  "// Type declarations\n" ++ strConcat (aliases.map aliasDecl)

/-- Client call function for one method: sends the wire-qualified method
name with either the filled `in` struct or `nil` when the method has no
input fields. -/
def clientCall (iname : String) (m : Method) : String :=
  "func " ++ m.name ++ "(c_ *varlink.Connection, more_ bool, oneway_ bool" ++
  inParams (fieldsOf m.In) ++ ") error \x7b\n" ++
  (if (fieldsOf m.In).isEmpty then
    "\treturn c_.Send(\"" ++ iname ++ "." ++ m.name ++
    "\", nil, more_, oneway_)\n\x7d\n\n"
  else
    "\tvar in " ++ writeType m.In true 1 ++ "\n" ++
    inAssigns (fieldsOf m.In) ++
    "\treturn c_.Send(\"" ++ iname ++ "." ++ m.name ++
    "\", in, more_, oneway_)\n\x7d\n\n")

/-- Reply reader for one method: receives into the wire-tagged `out` struct
(or `nil` when there are no output fields) and copies to the non-nil
out-pointers. -/
def clientRead (m : Method) : String :=
  "func Read" ++ m.name ++ "_(c *varlink.Connection" ++
  outPtrParams (fieldsOf m.Out) ++ ") (bool, error) \x7b\n" ++
  (if (fieldsOf m.Out).isEmpty then
    "\tcontinues_, err := c.Receive(nil)\n"
  else
    "\tvar out " ++ writeType m.Out true 1 ++ "\n" ++
    "\tcontinues_, err := c.Receive(&out)\n") ++
  "\tif err != nil \x7b\n\t\treturn false, err\n\t\x7d\n" ++
  outAssigns (fieldsOf m.Out) ++
  "\treturn continues_, nil\n\x7d\n\n"

/-- Client section: call plus reply reader for every method, in order. -/
def clientSection (iname : String) (methods : List Method) : String :=
  "// Client method calls and reply readers\n" ++
  strConcat (methods.map (fun m => clientCall iname m ++ clientRead m))

/-- One line of the server interface: the method's signature. -/
def ifaceLine (m : Method) : String :=
  "\t" ++ m.name ++ "(c VarlinkCall" ++ inParams (fieldsOf m.In) ++ ") error\n"

/-- Server interface section: `<pkgname>Interface` listing every method. -/
def ifaceSection (pkgname : String) (methods : List Method) : String :=
  "// Service interface with all methods\n" ++
  "type " ++ pkgname ++ "Interface interface \x7b\n" ++
  strConcat (methods.map ifaceLine) ++ "\x7d\n\n"

/-- The concrete call wrapper type. -/
def wrapperSection : String :=
  "// Service object with all methods\n" ++
  "type VarlinkCall struct\x7b varlink.Call \x7d\n\n"

/-- Error reply method for one error type: builds the wire-tagged struct and
delegates to `ReplyError` with the qualified error name, or passes `nil`
when the error carries no fields. -/
def replyErrorMethod (iname : String) (e : IDLError) : String :=
  "func (c *VarlinkCall) Reply" ++ e.name ++ "(" ++
  replyParams (fieldsOf e.ty) ++ ") error \x7b\n" ++
  (if (fieldsOf e.ty).isEmpty then
    "\treturn c.ReplyError(\"" ++ iname ++ "." ++ e.name ++ "\", nil)\n"
  else
    "\tvar out " ++ writeType e.ty true 1 ++ "\n" ++
    outSets (fieldsOf e.ty) ++
    "\treturn c.ReplyError(\"" ++ iname ++ "." ++ e.name ++ "\", &out)\n") ++
  "\x7d\n\n"

/-- Error-reply section. -/
def errorSection (iname : String) (errors : List IDLError) : String :=
  "// Reply methods for all varlink errors\n" ++
  strConcat (errors.map (replyErrorMethod iname))

/-- Success reply method for one method's output fields. -/
def replyMethod (m : Method) : String :=
  "func (c *VarlinkCall) Reply" ++ m.name ++ "(" ++
  replyParams (fieldsOf m.Out) ++ ") error \x7b\n" ++
  (if (fieldsOf m.Out).isEmpty then
    "\treturn c.Reply(nil)\n"
  else
    "\tvar out " ++ writeType m.Out true 1 ++ "\n" ++
    outSets (fieldsOf m.Out) ++
    "\treturn c.Reply(&out)\n") ++
  "\x7d\n\n"

/-- Method-reply section. -/
def replySection (methods : List Method) : String :=
  "// Reply methods for all varlink methods\n" ++
  strConcat (methods.map replyMethod)

/-- Default "not implemented" stub for one method. -/
def stubMethod (m : Method) : String :=
  "func (s *VarlinkInterface) " ++ m.name ++ "(c VarlinkCall" ++
  inParams (fieldsOf m.In) ++ ") error \x7b\n" ++
  "\treturn c.ReplyMethodNotImplemented(\"" ++ m.name ++ "\")\n\x7d\n\n"

/-- Stub section. -/
def stubSection (methods : List Method) : String :=
  "// Dummy methods for all varlink methods\n" ++
  strConcat (methods.map stubMethod)

/-- One dispatcher branch: a `case` on the method's bare name; with input
fields it decodes into the wire-tagged struct via `GetParameters` and passes
the converted fields, without input fields it invokes the handler
directly. -/
def dispatchCase (pkgname : String) (m : Method) : String :=
  "\tcase \"" ++ m.name ++ "\":\n" ++
  (if (fieldsOf m.In).isEmpty then
    "\t\treturn s." ++ pkgname ++ "Interface." ++ m.name ++
    "(VarlinkCall\x7bcall\x7d)\n"
  else
    "\t\tvar in " ++ writeType m.In true 2 ++ "\n" ++
    "\t\terr := call.GetParameters(&in)\n" ++
    "\t\tif err != nil \x7b\n" ++
    "\t\t\treturn call.ReplyInvalidParameter(\"parameters\")\n" ++
    "\t\t\x7d\n" ++
    "\t\treturn s." ++ pkgname ++ "Interface." ++ m.name ++
    "(VarlinkCall\x7bcall\x7d" ++ dispatchArgs (fieldsOf m.In) ++ ")\n") ++
  "\n"

/-- The dispatcher: a `switch` on the runtime method name with one branch
per method and a default branch replying method-not-found. -/
def dispatchSection (pkgname : String) (methods : List Method) : String :=
  "// Method call dispatcher\n" ++
  "func (s *VarlinkInterface) VarlinkDispatch(call varlink.Call, methodname string) error \x7b\n" ++
  "\tswitch methodname \x7b\n" ++
  strConcat (methods.map (dispatchCase pkgname)) ++
  "\tdefault:\n\t\treturn call.ReplyMethodNotFound(methodname)\n\t\x7d\n\x7d\n\n"

/-- Interface-name accessor. -/
def nameSection (iname : String) : String :=
  "// Varlink interface name\n" ++
  "func (s *VarlinkInterface) VarlinkGetName() string \x7b\n" ++
  "\treturn `" ++ iname ++ "`\n\x7d\n\n"

/-- Interface-description accessor: the description text embedded verbatim
inside a raw back-quoted string literal. -/
def descSection (description : String) : String :=
  "// Varlink interface description\n" ++
  "func (s *VarlinkInterface) VarlinkGetDescription() string \x7b\n" ++
  "\treturn `" ++ description ++ "\n`\n\x7d\n\n"

/-- The adapter type embedding the backend interface. -/
def serviceSection (pkgname : String) : String :=
  "// Service interface\n" ++
  "type VarlinkInterface struct \x7b\n\t" ++ pkgname ++ "Interface\n\x7d\n\n"

/-- The constructor binding a backend to the adapter. -/
def ctorSection (pkgname : String) : String :=
  "func VarlinkNew(m " ++ pkgname ++ "Interface) *VarlinkInterface \x7b\n" ++
  "\treturn &VarlinkInterface\x7bm\x7d\n\x7d\n"

/-- The full buffer contents of `generateTemplate` before the import
placeholder is resolved (the Go variable `ret_string` right after
`b.String()`). -/
def generateAssembled (midl : IDL) : String :=
  headerSection (stripDots midl.name) ++
  aliasSection midl.aliases ++
  clientSection midl.name midl.methods ++
  ifaceSection (stripDots midl.name) midl.methods ++
  wrapperSection ++
  errorSection midl.name midl.errors ++
  replySection midl.methods ++
  stubSection midl.methods ++
  dispatchSection (stripDots midl.name) midl.methods ++
  nameSection midl.name ++
  descSection midl.description ++
  serviceSection (stripDots midl.name) ++
  ctorSection (stripDots midl.name)

/-- Import block used when the assembled text mentions `json.RawMessage`. -/
def jsonImportsStr : String :=
  "import (\n\t\"github.com/varlink/go/varlink\"\n\t\"encoding/json\"\n)"

/-- Import line used otherwise. -/
def plainImportsStr : String :=
  "import \"github.com/varlink/go/varlink\""

/-- The assembled text with the `@IMPORTS@` placeholder resolved: the
`encoding/json` import is added exactly when the assembled text contains
the substring `json.RawMessage`. -/
def retString (midl : IDL) : String :=
  if containsStr (generateAssembled midl) "json.RawMessage" then
    replaceFirst (generateAssembled midl) "@IMPORTS@" jsonImportsStr
  else
    replaceFirst (generateAssembled midl) "@IMPORTS@" plainImportsStr

/-- The entry point `generateTemplate`, parameterized by the canonical formatter.
`go/format.Source` is an external collaborator (the Go standard library,
not part of this repository), so it is passed as a function argument: on
formatter failure the error is returned and both the unit name and the
source text are empty/absent; on success the derived package name and the
formatted text are returned. -/
def generateTemplate (fmtSrc : String → Except String String) (midl : IDL) :
    String × Option String × Option String :=
  match fmtSrc (retString midl) with
  | .error e => ("", none, some e)
  | .ok pretty => (stripDots midl.name, some pretty, none)

/-! ## Concrete example models used by witnesses and counterexamples -/

/-- A method with one string input and one string output. -/
def pingMethod : Method :=
  { name := "Ping",
    In := .tstruct (.cons "ping" .tstring .nil),
    Out := .tstruct (.cons "pong" .tstring .nil) }

/-- A method with no input and no output fields. -/
def emptyMethod : Method :=
  { name := "Flush", In := .tstruct .nil, Out := .tstruct .nil }

/-- A small interface model with one method. -/
def pingIDL : IDL :=
  { name := "org.example.ping",
    description := "interface org.example.ping\n\nmethod Ping(ping: string) -> (pong: string)",
    aliases := [],
    methods := [pingMethod],
    errors := [] }

/-! ## Shared lemmas -/

/-- Concatenation of field lists. -/
def FieldList.append : FieldList → FieldList → FieldList
  | .nil, gs => gs
  | .cons n ty rest, gs => .cons n ty (rest.append gs)

theorem writeFields_flAppend (fs gs : FieldList) (json : Bool) (i : Nat) :
    writeFields (fs.append gs) json i =
      writeFields fs json i ++ writeFields gs json i :=
  match fs with
  | .nil => by simp [FieldList.append, writeFields]
  | .cons n ty rest => by
      simp [FieldList.append, writeFields,
        writeFields_flAppend rest gs json i, String.append_assoc]

/-! ## Claims -/

/-- C7: generation is a pure, deterministic function of the five components
of the input model and of nothing else (no hidden state): two invocations
of `generateTemplate` on models agreeing componentwise (with the same
canonical formatter) return the identical unit name and byte-identical
source text — in particular re-invoking it on the same model does. -/
theorem generateTemplate_deterministic
    (fmtSrc : String → Except String String) (m₁ m₂ : IDL)
    (hn : m₁.name = m₂.name) (hd : m₁.description = m₂.description)
    (ha : m₁.aliases = m₂.aliases) (hm : m₁.methods = m₂.methods)
    (he : m₁.errors = m₂.errors) :
    generateTemplate fmtSrc m₁ = generateTemplate fmtSrc m₂ ∧
    retString m₁ = retString m₂ := by
  cases m₁
  cases m₂
  simp only at hn hd ha hm he
  subst hn hd ha hm he
  exact ⟨rfl, rfl⟩

/-- Witness for C7: re-invocation on a concrete model yields the identical
pair. -/
theorem generateTemplate_deterministic_witness :
    generateTemplate Except.ok pingIDL = generateTemplate Except.ok pingIDL :=
  (generateTemplate_deterministic Except.ok pingIDL pingIDL
    rfl rfl rfl rfl rfl).1

/-- C8: when the canonical formatter rejects the assembled text, the
formatting error is propagated unrecovered and no output is produced:
the returned unit name is empty and the returned source text is absent. -/
theorem generateTemplate_format_error_no_output
    (fmtSrc : String → Except String String) (midl : IDL) (e : String)
    (h : fmtSrc (retString midl) = .error e) :
    generateTemplate fmtSrc midl = ("", none, some e) := by
  unfold generateTemplate
  rw [h]

/-- Witness for C8 at a concrete model and a formatter that always fails. -/
theorem generateTemplate_format_error_no_output_witness :
    generateTemplate (fun _ => .error "fmt") pingIDL = ("", none, some "fmt") :=
  generateTemplate_format_error_no_output (fun _ => .error "fmt") pingIDL "fmt" rfl

/-- C2 (amended): a method with zero input fields sends a `nil` payload
(not an empty struct literal), and its dispatcher branch performs no
parameter decoding at all — it invokes the handler directly, with no
`GetParameters` call. -/
theorem zero_input_nil_payload_no_decode (iname pkgname : String) (m : Method)
    (h : fieldsOf m.In = FieldList.nil) :
    clientCall iname m =
      "func " ++ m.name ++
      "(c_ *varlink.Connection, more_ bool, oneway_ bool" ++ ") error \x7b\n" ++
      "\treturn c_.Send(\"" ++ iname ++ "." ++ m.name ++
      "\", nil, more_, oneway_)\n\x7d\n\n" ∧
    dispatchCase pkgname m =
      "\tcase \"" ++ m.name ++ "\":\n" ++
      "\t\treturn s." ++ pkgname ++ "Interface." ++ m.name ++
      "(VarlinkCall\x7bcall\x7d)\n" ++ "\n" := by
  constructor <;>
    · simp [clientCall, dispatchCase, h, inParams, FieldList.isEmpty,
        String.append_assoc]
      rfl

/-- Witness for C2 (amended) at a concrete zero-input method. -/
theorem zero_input_nil_payload_no_decode_witness :
    clientCall "org.example.ping" emptyMethod =
      "func Flush(c_ *varlink.Connection, more_ bool, oneway_ bool) error \x7b\n\treturn c_.Send(\"org.example.ping.Flush\", nil, more_, oneway_)\n\x7d\n\n" ∧
    dispatchCase "orgexampleping" emptyMethod =
      "\tcase \"Flush\":\n\t\treturn s.orgexamplepingInterface.Flush(VarlinkCall\x7bcall\x7d)\n\n" := by
  have h := zero_input_nil_payload_no_decode "org.example.ping" "orgexampleping"
    emptyMethod rfl
  refine ⟨?_, ?_⟩
  · rw [h.1]; rfl
  · rw [h.2]; rfl

/-- C2 counterexample: the claim as stated says the dispatcher branch of a
zero-input method "decodes parameters with a null destination"; in fact the
branch contains no call to the parameter decoder at all. -/
theorem zero_input_dispatch_has_no_getparameters :
    containsStr (dispatchCase "orgexampleping" emptyMethod) "GetParameters" = false ∧
    dispatchCase "orgexampleping" emptyMethod =
      "\tcase \"Flush\":\n\t\treturn s.orgexamplepingInterface.Flush(VarlinkCall\x7bcall\x7d)\n\n" := by
  constructor
  · decide
  · rfl

/-- C6: in wire-tagged struct rendering a field's tag carries `,omitempty`
exactly when the field's type kind is Maybe: a Maybe field renders with the
omittable marking, any other kind renders without it, a field line equal to
the omittable form must come from a Maybe field, and the per-field form
covers every position of every struct (the field loop is a homomorphism
over list concatenation). -/
theorem maybe_field_omitempty (n : String) (ty : IDLType) (i : Nat) :
    (kind ty = Kind.TypeMaybe →
      writeFields (.cons n ty .nil) true i =
        tabs (i+1) ++ goTitle n ++ " " ++ writeType ty true (i+1) ++
        " `json:\"" ++ n ++ ",omitempty\"`" ++ "\n")
    ∧ (kind ty ≠ Kind.TypeMaybe →
      writeFields (.cons n ty .nil) true i =
        tabs (i+1) ++ goTitle n ++ " " ++ writeType ty true (i+1) ++
        " `json:\"" ++ n ++ "\"`" ++ "\n")
    ∧ (writeFields (.cons n ty .nil) true i =
        tabs (i+1) ++ goTitle n ++ " " ++ writeType ty true (i+1) ++
        " `json:\"" ++ n ++ ",omitempty\"`" ++ "\n" → kind ty = Kind.TypeMaybe)
    ∧ (∀ fs1 fs2 : FieldList,
        writeFields (fs1.append (.cons n ty fs2)) true i =
          writeFields fs1 true i ++ writeFields (.cons n ty .nil) true i ++
          writeFields fs2 true i) := by
  have hyes : kind ty = Kind.TypeMaybe →
      writeFields (.cons n ty .nil) true i =
        tabs (i+1) ++ goTitle n ++ " " ++ writeType ty true (i+1) ++
        " `json:\"" ++ n ++ ",omitempty\"`" ++ "\n" := by
    intro hm
    simp [writeFields, hm, String.append_assoc]
  have hno : kind ty ≠ Kind.TypeMaybe →
      writeFields (.cons n ty .nil) true i =
        tabs (i+1) ++ goTitle n ++ " " ++ writeType ty true (i+1) ++
        " `json:\"" ++ n ++ "\"`" ++ "\n" := by
    intro hm
    simp [writeFields, hm, String.append_assoc]
  refine ⟨hyes, hno, ?_, ?_⟩
  · intro h
    by_cases hm : kind ty = Kind.TypeMaybe
    · exact hm
    · exfalso
      rw [hno hm] at h
      have hlen := congrArg String.length h
      have l1 : (" `json:\"" : String).length = 8 := rfl
      have l2 : ("\"`" : String).length = 2 := rfl
      have l3 : (",omitempty\"`" : String).length = 12 := rfl
      have l4 : (",omitempty" : String).length = 10 := rfl
      have l5 : ("\n" : String).length = 1 := rfl
      have l6 : (" " : String).length = 1 := rfl
      simp only [String.length_append, l1, l2, l3, l4, l5, l6] at hlen
      omega
  · intro fs1 fs2
    rw [writeFields_flAppend]
    simp [writeFields, String.append_assoc]

/-- Witness for C6: a Maybe field carries `,omitempty`, a non-Maybe field
does not. -/
theorem maybe_field_omitempty_witness :
    writeFields (.cons "opt" (.tmaybe .tint) .nil) true 0 =
      "\tOpt *int64 `json:\"opt,omitempty\"`\n" ∧
    writeFields (.cons "cnt" .tint .nil) true 0 =
      "\tCnt int64 `json:\"cnt\"`\n" := by
  have h1 := (maybe_field_omitempty "opt" (.tmaybe .tint) 0).1 rfl
  have h2 := (maybe_field_omitempty "cnt" .tint 0).2.1 (by decide)
  exact ⟨by rw [h1]; rfl, by rw [h2]; rfl⟩

/-- C3: for a field whose name is a Go reserved word, every emission loop
that writes the field's local identifier (client parameters, client-call
assignments, reply-reader out-pointer parameters and assignments, reply
parameters, reply assignments, dispatcher arguments) uses the
deterministically suffixed name `k ++ "_"`, while the wire tag written by
the struct renderer uses the unmodified original name `k` (the struct
member itself uses the title-cased original, never the suffixed form). -/
theorem keyword_field_sanitized (k : String) (ty : IDLType) (i : Nat)
    (hk : goKeywords.contains k = true) :
    sanitizeGoName k = k ++ "_"
    ∧ writeFields (.cons k ty .nil) true i =
        tabs (i+1) ++ goTitle k ++ " " ++ writeType ty true (i+1) ++
        " `json:\"" ++ k ++
        (if kind ty = Kind.TypeMaybe then ",omitempty" else "") ++ "\"`" ++ "\n"
    ∧ inParams (.cons k ty .nil) =
        ", " ++ (k ++ "_") ++ " " ++ writeType ty false 1
    ∧ inAssigns (.cons k ty .nil) =
        (if needsConv ty then
          "\tin." ++ goTitle k ++ " = " ++ writeType ty true 1 ++
          "(" ++ (k ++ "_") ++ ")\n"
        else "\tin." ++ goTitle k ++ " = " ++ (k ++ "_") ++ "\n")
    ∧ outPtrParams (.cons k ty .nil) =
        ", " ++ (k ++ "_") ++ " *" ++ writeType ty false 1
    ∧ outAssigns (.cons k ty .nil) =
        "\tif " ++ (k ++ "_") ++ " != nil \x7b\n" ++
        (if needsConv ty then
          "\t\t*" ++ (k ++ "_") ++ " = " ++ writeType ty false 2 ++
          " (out." ++ goTitle k ++ ")\n"
        else "\t\t*" ++ (k ++ "_") ++ " = out." ++ goTitle k ++ "\n") ++
        "\t\x7d\n"
    ∧ replyParams (.cons k ty .nil) =
        (k ++ "_") ++ " " ++ writeType ty false 1
    ∧ outSets (.cons k ty .nil) =
        (if needsConv ty then
          "\tout." ++ goTitle k ++ " = " ++ writeType ty true 1 ++
          "(" ++ (k ++ "_") ++ ")\n"
        else "\tout." ++ goTitle k ++ " = " ++ (k ++ "_") ++ "\n")
    ∧ dispatchArgs (.cons k ty .nil) =
        (if needsConv ty then
          ", " ++ writeType ty false 2 ++ "(in." ++ goTitle k ++ ")"
        else ", in." ++ goTitle k) := by
  have hs : sanitizeGoName k = k ++ "_" := by
    have hk' : k ∈ goKeywords := by simpa using hk
    simp [sanitizeGoName, hk']
  refine ⟨hs, ?_, ?_, ?_, ?_, ?_, ?_, ?_, ?_⟩
  · simp [writeFields, String.append_assoc]
  · simp [inParams, hs, String.append_assoc]
  · by_cases hc : needsConv ty <;>
      simp [inAssigns, hs, hc, String.append_assoc]
  · simp [outPtrParams, hs, String.append_assoc]
  · by_cases hc : needsConv ty <;>
      simp [outAssigns, hs, hc, String.append_assoc]
  · simp [replyParams, replyParamsRest, hs, String.append_assoc]
  · by_cases hc : needsConv ty <;>
      simp [outSets, hs, hc, String.append_assoc]
  · by_cases hc : needsConv ty <;>
      simp [dispatchArgs, hs, hc, String.append_assoc]

/-- Witness for C3 at the reserved word `type`: the local identifier is
`type_`, the struct member is the title-cased `Type`, and the wire tag is
the unmodified `type`. -/
theorem keyword_field_sanitized_witness :
    sanitizeGoName "type" = "type_" ∧
    inParams (.cons "type" .tbool .nil) = ", type_ bool" ∧
    writeFields (.cons "type" .tbool .nil) true 0 =
      "\tType bool `json:\"type\"`\n" := by
  have h := keyword_field_sanitized "type" .tbool 0 (by decide)
  refine ⟨h.1, ?_, ?_⟩
  · rw [h.2.2.1]; rfl
  · rw [h.2.1]; rfl

theorem takeWhile_quotefree (n x : List Char) (hn : '"' ∉ n) :
    (n ++ '"' :: x).takeWhile (fun c => c != '"') = n := by
  induction n with
  | nil => simp
  | cons a as ih =>
      have ha : a ≠ '"' := fun h => hn (h ▸ List.mem_cons_self a as)
      have has : '"' ∉ as := fun h => hn (List.mem_cons_of_mem a h)
      simp [List.takeWhile_cons, ha, ih has]

theorem quotefree_case_name_inj (n₁ n₂ : String) (x y : List Char)
    (h₁ : '"' ∉ n₁.data) (h₂ : '"' ∉ n₂.data)
    (h : n₁.data ++ '"' :: x = n₂.data ++ '"' :: y) : n₁ = n₂ := by
  apply String.ext
  have hw := congrArg (List.takeWhile (fun c => c != '"')) h
  rwa [takeWhile_quotefree _ _ h₁, takeWhile_quotefree _ _ h₂] at hw

/-- C4: the dispatcher consists of the switch header, exactly one `case`
branch per declared method (in declaration order, each opened with the
method's bare, unqualified name), and exactly one trailing default branch
replying method-not-found; branches of methods with distinct (quote-free)
names are distinct strings. -/
theorem dispatcher_branches (pkgname : String) (ms : List Method) :
    dispatchSection pkgname ms =
      "// Method call dispatcher\n" ++
      "func (s *VarlinkInterface) VarlinkDispatch(call varlink.Call, methodname string) error \x7b\n" ++
      "\tswitch methodname \x7b\n" ++
      strConcat (ms.map (dispatchCase pkgname)) ++
      "\tdefault:\n\t\treturn call.ReplyMethodNotFound(methodname)\n\t\x7d\n\x7d\n\n"
    ∧ (∀ m ∈ ms, ∃ body,
        dispatchCase pkgname m = ("\tcase \"" ++ m.name ++ "\":\n") ++ body)
    ∧ (∀ m₁ m₂ : Method, '"' ∉ m₁.name.data → '"' ∉ m₂.name.data →
        m₁.name ≠ m₂.name →
        dispatchCase pkgname m₁ ≠ dispatchCase pkgname m₂) := by
  refine ⟨rfl, ?_, ?_⟩
  · intro m _
    refine ⟨(if (fieldsOf m.In).isEmpty then
        "\t\treturn s." ++ pkgname ++ "Interface." ++ m.name ++
        "(VarlinkCall\x7bcall\x7d)\n"
      else
        "\t\tvar in " ++ writeType m.In true 2 ++ "\n" ++
        "\t\terr := call.GetParameters(&in)\n" ++
        "\t\tif err != nil \x7b\n" ++
        "\t\t\treturn call.ReplyInvalidParameter(\"parameters\")\n" ++
        "\t\t\x7d\n" ++
        "\t\treturn s." ++ pkgname ++ "Interface." ++ m.name ++
        "(VarlinkCall\x7bcall\x7d" ++ dispatchArgs (fieldsOf m.In) ++ ")\n") ++
      "\n", ?_⟩
    unfold dispatchCase
    exact String.append_assoc _ _ _
  · intro m₁ m₂ h₁ h₂ hne heq
    apply hne
    have hd := congrArg String.data heq
    simp only [dispatchCase, String.data_append, List.append_assoc] at hd
    have hd' := List.append_cancel_left hd
    simp only [List.cons_append, List.nil_append] at hd'
    exact quotefree_case_name_inj _ _ _ _ h₁ h₂ hd'

/-- Witness for C4: two concrete methods with distinct names yield distinct
dispatcher branches. -/
theorem dispatcher_branches_witness :
    dispatchCase "orgexampleping" pingMethod ≠
      dispatchCase "orgexampleping" emptyMethod := by
  have h := dispatcher_branches "orgexampleping" [pingMethod, emptyMethod]
  exact h.2.2 pingMethod emptyMethod (by decide) (by decide) (by decide)

/-- The character sequence of one wire tag as emitted by `writeFields`:
a leading space, then the backquoted `json:"<name>"` tag, with `,omitempty`
when `om` is set. -/
def jsonTagChars (nm : List Char) (om : Bool) : List Char :=
  (" `json:\"").data ++ nm ++ (if om then (",omitempty").data else []) ++
  ("\"`").data

/-- The relation `Detagged w p` says the character sequences `w` and `p` are identical
except that `w` additionally contains inserted wire-tag segments of the
exact shape emitted by `writeFields`: the two renderings differ only in the
presence of per-field wire tags. -/
inductive Detagged : List Char → List Char → Prop where
  | nil : Detagged [] []
  | same (c : Char) {s t : List Char} : Detagged s t → Detagged (c :: s) (c :: t)
  | tag (nm : List Char) (om : Bool) {s t : List Char} :
      Detagged s t → Detagged (jsonTagChars nm om ++ s) t

theorem detagged_refl (l : List Char) : Detagged l l := by
  induction l with
  | nil => exact .nil
  | cons c cs ih => exact .same c ih

theorem Detagged.append {a b c d : List Char}
    (h₁ : Detagged a b) (h₂ : Detagged c d) : Detagged (a ++ c) (b ++ d) := by
  induction h₁ with
  | nil => simpa using h₂
  | same ch _ ih => exact .same ch ih
  | tag nm om _ ih =>
      rw [List.append_assoc]
      exact .tag nm om ih

mutual
theorem writeType_detag (t : IDLType) (i : Nat) :
    Detagged (writeType t true i).data (writeType t false i).data :=
  match t with
  | .tbool => detagged_refl _
  | .tint => detagged_refl _
  | .tfloat => detagged_refl _
  | .tstring => detagged_refl _
  | .tenum => detagged_refl _
  | .tobject => detagged_refl _
  | .tarray e => by
      have h := writeType_detag e i
      simpa [writeType, String.data_append] using
        Detagged.append (detagged_refl ("[]" : String).data) h
  | .tmap e => by
      have h := writeType_detag e i
      simpa [writeType, String.data_append] using
        Detagged.append (detagged_refl ("map[string]" : String).data) h
  | .tmaybe e => by
      have h := writeType_detag e i
      simpa [writeType, String.data_append] using
        Detagged.append (detagged_refl ("*" : String).data) h
  | .talias n => detagged_refl _
  | .tstruct .nil => detagged_refl _
  | .tstruct (.cons n ty rest) => by
      have hf := writeFields_detag (.cons n ty rest) i
      have h := Detagged.append (detagged_refl ("struct \x7b\n" : String).data)
        (Detagged.append hf (detagged_refl (tabs i ++ "\x7d").data))
      simpa [writeType, String.data_append, List.append_assoc] using h

theorem writeFields_detag (fs : FieldList) (i : Nat) :
    Detagged (writeFields fs true i).data (writeFields fs false i).data :=
  match fs with
  | .nil => Detagged.nil
  | .cons n ty rest => by
      have hty := writeType_detag ty (i + 1)
      have hrest := writeFields_detag rest i
      have base : Detagged (("\n" : String).data ++ (writeFields rest true i).data)
          (("\n" : String).data ++ (writeFields rest false i).data) :=
        Detagged.append (detagged_refl _) hrest
      have htag := Detagged.tag n.data (kind ty == Kind.TypeMaybe) base
      have h := Detagged.append
        (detagged_refl (tabs (i + 1) ++ goTitle n ++ " " : String).data)
        (Detagged.append hty htag)
      by_cases hm : kind ty = Kind.TypeMaybe
      · simpa [writeFields, hm, jsonTagChars, String.data_append,
          List.append_assoc] using h
      · simpa [writeFields, hm, jsonTagChars, String.data_append,
          List.append_assoc] using h
end

/-- C5: for every type, the wire-tagged rendering and the plain rendering
of the type translator differ only in the presence of per-field wire tags
on struct fields: deleting the inserted tag segments from the wire-tagged
text yields exactly the plain text, so the underlying type shape (element
types, member names, nesting depth) is identical in both renderings. -/
theorem wire_plain_differ_only_by_tags (t : IDLType) (i : Nat) :
    Detagged (writeType t true i).data (writeType t false i).data :=
  writeType_detag t i

mutual
/-- Size of a type tree: the number of recursive calls `writeType` needs
(every node counts one). -/
def typeSize : IDLType → Nat
  | .tarray e => typeSize e + 1
  | .tmap e => typeSize e + 1
  | .tmaybe e => typeSize e + 1
  | .tstruct fs => fieldsSize fs + 1
  | _ => 1

/-- Size of a field list, counting the field types it contains. -/
def fieldsSize : FieldList → Nat
  | .nil => 1
  | .cons _ ty rest => typeSize ty + fieldsSize rest + 1
end

mutual
/-- The translator `writeType` with an explicit recursion budget: every recursive call
consumes one unit of fuel and exhausted fuel yields `none`.  This models
the raw recursion of the source without assuming termination. -/
def writeTypeFuel : Nat → IDLType → Bool → Nat → Option String
  | 0, _, _, _ => none
  | _ + 1, .tbool, _, _ => some "bool"
  | _ + 1, .tint, _, _ => some "int64"
  | _ + 1, .tfloat, _, _ => some "float64"
  | _ + 1, .tstring, _, _ => some "string"
  | _ + 1, .tenum, _, _ => some "string"
  | _ + 1, .tobject, _, _ => some "json.RawMessage"
  | n + 1, .tarray e, json, ident =>
      (writeTypeFuel n e json ident).map (fun s => "[]" ++ s)
  | n + 1, .tmap e, json, ident =>
      (writeTypeFuel n e json ident).map (fun s => "map[string]" ++ s)
  | n + 1, .tmaybe e, json, ident =>
      (writeTypeFuel n e json ident).map (fun s => "*" ++ s)
  | _ + 1, .talias nm, _, _ => some nm
  | _ + 1, .tstruct .nil, _, _ => some "struct\x7b\x7d"
  | n + 1, .tstruct (.cons m ty rest), json, ident =>
      (writeFieldsFuel n (.cons m ty rest) json ident).map
        (fun w => "struct \x7b\n" ++ w ++ tabs ident ++ "\x7d")

/-- The field loop of `writeTypeFuel`, likewise fuel-bounded. -/
def writeFieldsFuel : Nat → FieldList → Bool → Nat → Option String
  | 0, _, _, _ => none
  | _ + 1, .nil, _, _ => some ""
  | n + 1, .cons m ty rest, json, ident =>
      match writeTypeFuel n ty json (ident + 1),
            writeFieldsFuel n rest json ident with
      | some wt, some wr =>
          some (tabs (ident + 1) ++ goTitle m ++ " " ++ wt ++
            (if json then
              " `json:\"" ++ m ++
              (if kind ty = Kind.TypeMaybe then ",omitempty" else "") ++ "\"`"
            else "") ++
            "\n" ++ wr)
      | _, _ => none
end

theorem typeSize_pos (t : IDLType) : 0 < typeSize t := by
  cases t <;> simp [typeSize]

theorem fieldsSize_pos (fs : FieldList) : 0 < fieldsSize fs := by
  cases fs <;> simp [fieldsSize]

mutual
theorem writeTypeFuel_eq (fuel : Nat) (t : IDLType) (json : Bool)
    (ident : Nat) (h : typeSize t ≤ fuel) :
    writeTypeFuel fuel t json ident = some (writeType t json ident) :=
  match fuel, t with
  | 0, t => absurd h (by have := typeSize_pos t; omega)
  | _ + 1, .tbool => by simp [writeTypeFuel, writeType]
  | _ + 1, .tint => by simp [writeTypeFuel, writeType]
  | _ + 1, .tfloat => by simp [writeTypeFuel, writeType]
  | _ + 1, .tstring => by simp [writeTypeFuel, writeType]
  | _ + 1, .tenum => by simp [writeTypeFuel, writeType]
  | _ + 1, .tobject => by simp [writeTypeFuel, writeType]
  | n + 1, .tarray e => by
      have he : typeSize e ≤ n := by simp [typeSize] at h; omega
      simp [writeTypeFuel, writeType, writeTypeFuel_eq n e json ident he]
  | n + 1, .tmap e => by
      have he : typeSize e ≤ n := by simp [typeSize] at h; omega
      simp [writeTypeFuel, writeType, writeTypeFuel_eq n e json ident he]
  | n + 1, .tmaybe e => by
      have he : typeSize e ≤ n := by simp [typeSize] at h; omega
      simp [writeTypeFuel, writeType, writeTypeFuel_eq n e json ident he]
  | _ + 1, .talias nm => by simp [writeTypeFuel, writeType]
  | _ + 1, .tstruct .nil => by simp [writeTypeFuel, writeType]
  | n + 1, .tstruct (.cons m ty rest) => by
      have hf : fieldsSize (.cons m ty rest) ≤ n := by
        simp [typeSize] at h; omega
      simp [writeTypeFuel, writeType,
        writeFieldsFuel_eq n (.cons m ty rest) json ident hf,
        String.append_assoc]

theorem writeFieldsFuel_eq (fuel : Nat) (fs : FieldList) (json : Bool)
    (ident : Nat) (h : fieldsSize fs ≤ fuel) :
    writeFieldsFuel fuel fs json ident = some (writeFields fs json ident) :=
  match fuel, fs with
  | 0, fs => absurd h (by have := fieldsSize_pos fs; omega)
  | _ + 1, .nil => by simp [writeFieldsFuel, writeFields]
  | n + 1, .cons m ty rest => by
      have h1 : typeSize ty ≤ n := by
        simp [fieldsSize] at h
        have := fieldsSize_pos rest
        omega
      have h2 : fieldsSize rest ≤ n := by
        simp [fieldsSize] at h
        have := typeSize_pos ty
        omega
      simp [writeFieldsFuel, writeFields,
        writeTypeFuel_eq n ty json (ident + 1) h1,
        writeFieldsFuel_eq n rest json ident h2, String.append_assoc]
end

/-- C10: the type translator terminates on every finite type tree — it
recurses only into strictly smaller subterms, so a recursion budget of
`typeSize t` steps (the node count) already suffices for the fuel-bounded
version to return the total function's answer instead of running out. -/
theorem writeType_total_with_fuel (t : IDLType) (json : Bool)
    (ident fuel : Nat) (h : typeSize t ≤ fuel) :
    writeTypeFuel fuel t json ident = some (writeType t json ident) :=
  writeTypeFuel_eq fuel t json ident h

/-- Witness for C10 at a nested concrete type. -/
theorem writeType_total_with_fuel_witness :
    writeTypeFuel 3 (.tarray (.tmaybe .tint)) false 0 = some "[]*int64" := by
  have h := writeType_total_with_fuel (.tarray (.tmaybe .tint)) false 0 3
    (by decide)
  rw [h]; rfl

mutual
/-- Whether a type tree contains an Object node anywhere (so that rendering
it mentions the untyped-payload type `json.RawMessage`). -/
def occursObject : IDLType → Bool
  | .tobject => true
  | .tarray e => occursObject e
  | .tmap e => occursObject e
  | .tmaybe e => occursObject e
  | .tstruct fs => occursObjectFL fs
  | _ => false

/-- Whether some field of the list has an Object node in its type. -/
def occursObjectFL : FieldList → Bool
  | .nil => false
  | .cons _ ty rest => occursObject ty || occursObjectFL rest
end

/-- Spec-side predicate ("some field anywhere in the model has Object kind,
i.e. the untyped-payload type is used as a type"): an Object node occurs in
some alias type, or in some field of some method's input or output, or in
some field of some error type. -/
def modelHasObjectField (m : IDL) : Bool :=
  m.aliases.any (fun a => occursObject a.ty) ||
  m.methods.any (fun mm =>
    occursObjectFL (fieldsOf mm.In) || occursObjectFL (fieldsOf mm.Out)) ||
  m.errors.any (fun e => occursObjectFL (fieldsOf e.ty))

/-- The proposition that `pat` occurs as a contiguous substring of `s`. -/
def strInfix (pat s : String) : Prop :=
  pat.data <:+: s.data

theorem strInfix_appL {pat s : String} (a : String) (h : strInfix pat s) :
    strInfix pat (a ++ s) :=
  h.trans ((List.suffix_append a.data s.data).isInfix)

theorem strInfix_appR {pat s : String} (b : String) (h : strInfix pat s) :
    strInfix pat (s ++ b) :=
  h.trans ((List.prefix_append s.data b.data).isInfix)

theorem strInfix_of_decomp {pat v : String} (h : strInfix pat v)
    (pre post s : String) (hs : s = pre ++ v ++ post) : strInfix pat s :=
  hs ▸ strInfix_appR post (strInfix_appL pre h)

theorem strInfix_strConcat {α : Type} (l : List α) (f : α → String) (x : α)
    (hx : x ∈ l) {pat : String} (h : strInfix pat (f x)) :
    strInfix pat (strConcat (l.map f)) := by
  induction l with
  | nil => cases hx
  | cons y ys ih =>
      rcases List.mem_cons.mp hx with h1 | h2
      · subst h1
        exact strInfix_appR _ h
      · exact strInfix_appL (f y) (ih h2)

mutual
theorem occursObject_writeType (t : IDLType) (json : Bool) (i : Nat)
    (h : occursObject t = true) :
    strInfix "json.RawMessage" (writeType t json i) :=
  match t with
  | .tbool => by simp [occursObject] at h
  | .tint => by simp [occursObject] at h
  | .tfloat => by simp [occursObject] at h
  | .tstring => by simp [occursObject] at h
  | .tenum => by simp [occursObject] at h
  | .tobject => List.infix_rfl
  | .tarray e => by
      simp only [occursObject] at h
      exact strInfix_appL "[]" (occursObject_writeType e json i h)
  | .tmap e => by
      simp only [occursObject] at h
      exact strInfix_appL "map[string]" (occursObject_writeType e json i h)
  | .tmaybe e => by
      simp only [occursObject] at h
      exact strInfix_appL "*" (occursObject_writeType e json i h)
  | .talias _ => by simp [occursObject] at h
  | .tstruct .nil => by simp [occursObject, occursObjectFL] at h
  | .tstruct (.cons n ty rest) => by
      simp only [occursObject] at h
      have hf := occursObjectFL_writeFields (.cons n ty rest) json i h
      exact strInfix_of_decomp hf "struct \x7b\n" (tabs i ++ "\x7d") _
        (by simp [writeType, String.append_assoc])

theorem occursObjectFL_writeFields (fs : FieldList) (json : Bool) (i : Nat)
    (h : occursObjectFL fs = true) :
    strInfix "json.RawMessage" (writeFields fs json i) :=
  match fs with
  | .nil => by simp [occursObjectFL] at h
  | .cons n ty rest => by
      simp only [occursObjectFL, Bool.or_eq_true] at h
      rcases h with h1 | h2
      · have ht := occursObject_writeType ty json (i + 1) h1
        exact strInfix_of_decomp ht (tabs (i + 1) ++ goTitle n ++ " ")
          ((if json then
            " `json:\"" ++ n ++
            (if kind ty = Kind.TypeMaybe then ",omitempty" else "") ++ "\"`"
          else "") ++ "\n" ++ writeFields rest json i) _
          (by simp [writeFields, String.append_assoc])
      · have hr := occursObjectFL_writeFields rest json i h2
        exact strInfix_of_decomp hr
          (tabs (i + 1) ++ goTitle n ++ " " ++ writeType ty json (i + 1) ++
            (if json then
              " `json:\"" ++ n ++
              (if kind ty = Kind.TypeMaybe then ",omitempty" else "") ++ "\"`"
            else "") ++ "\n") "" _
          (by simp [writeFields, String.append_assoc])
end

theorem occursObjectFL_inParams (fs : FieldList)
    (h : occursObjectFL fs = true) :
    strInfix "json.RawMessage" (inParams fs) :=
  match fs with
  | .nil => by simp [occursObjectFL] at h
  | .cons n ty rest => by
      simp only [occursObjectFL, Bool.or_eq_true] at h
      rcases h with h1 | h2
      · exact strInfix_of_decomp (occursObject_writeType ty false 1 h1)
          (", " ++ sanitizeGoName n ++ " ") (inParams rest) _
          (by simp [inParams, String.append_assoc])
      · exact strInfix_of_decomp (occursObjectFL_inParams rest h2)
          (", " ++ sanitizeGoName n ++ " " ++ writeType ty false 1) "" _
          (by simp [inParams, String.append_assoc])

theorem occursObjectFL_outPtrParams (fs : FieldList)
    (h : occursObjectFL fs = true) :
    strInfix "json.RawMessage" (outPtrParams fs) :=
  match fs with
  | .nil => by simp [occursObjectFL] at h
  | .cons n ty rest => by
      simp only [occursObjectFL, Bool.or_eq_true] at h
      rcases h with h1 | h2
      · exact strInfix_of_decomp (occursObject_writeType ty false 1 h1)
          (", " ++ sanitizeGoName n ++ " *") (outPtrParams rest) _
          (by simp [outPtrParams, String.append_assoc])
      · exact strInfix_of_decomp (occursObjectFL_outPtrParams rest h2)
          (", " ++ sanitizeGoName n ++ " *" ++ writeType ty false 1) "" _
          (by simp [outPtrParams, String.append_assoc])

theorem occursObjectFL_replyParamsRest (fs : FieldList)
    (h : occursObjectFL fs = true) :
    strInfix "json.RawMessage" (replyParamsRest fs) :=
  match fs with
  | .nil => by simp [occursObjectFL] at h
  | .cons n ty rest => by
      simp only [occursObjectFL, Bool.or_eq_true] at h
      rcases h with h1 | h2
      · exact strInfix_of_decomp (occursObject_writeType ty false 1 h1)
          (", " ++ sanitizeGoName n ++ " ") (replyParamsRest rest) _
          (by simp [replyParamsRest, String.append_assoc])
      · exact strInfix_of_decomp (occursObjectFL_replyParamsRest rest h2)
          (", " ++ sanitizeGoName n ++ " " ++ writeType ty false 1) "" _
          (by simp [replyParamsRest, String.append_assoc])

theorem occursObjectFL_replyParams (fs : FieldList)
    (h : occursObjectFL fs = true) :
    strInfix "json.RawMessage" (replyParams fs) :=
  match fs with
  | .nil => by simp [occursObjectFL] at h
  | .cons n ty rest => by
      simp only [occursObjectFL, Bool.or_eq_true] at h
      rcases h with h1 | h2
      · exact strInfix_of_decomp (occursObject_writeType ty false 1 h1)
          (sanitizeGoName n ++ " ") (replyParamsRest rest) _
          (by simp [replyParams, String.append_assoc])
      · exact strInfix_of_decomp (occursObjectFL_replyParamsRest rest h2)
          (sanitizeGoName n ++ " " ++ writeType ty false 1) "" _
          (by simp [replyParams, String.append_assoc])

theorem modelHasObject_assembled (m : IDL)
    (h : modelHasObjectField m = true) :
    strInfix "json.RawMessage" (generateAssembled m) := by
  simp only [modelHasObjectField, Bool.or_eq_true, List.any_eq_true] at h
  rcases h with (⟨a, ha, hobj⟩ | ⟨mm, hmm, hio⟩) | ⟨e, he, hobj⟩
  · have h2 : strInfix "json.RawMessage" (aliasDecl a) := by
      unfold aliasDecl
      apply strInfix_appR
      apply strInfix_appL
      exact occursObject_writeType a.ty true 0 hobj
    unfold generateAssembled
    apply strInfix_appR; apply strInfix_appR; apply strInfix_appR
    apply strInfix_appR; apply strInfix_appR; apply strInfix_appR
    apply strInfix_appR; apply strInfix_appR; apply strInfix_appR
    apply strInfix_appR; apply strInfix_appR
    apply strInfix_appL
    unfold aliasSection
    apply strInfix_appL
    exact strInfix_strConcat m.aliases aliasDecl a ha h2
  · have hio' : occursObjectFL (fieldsOf mm.In) = true ∨
        occursObjectFL (fieldsOf mm.Out) = true := by simpa using hio
    rcases hio' with hin | hout
    · have h2 : strInfix "json.RawMessage" (clientCall m.name mm) := by
        unfold clientCall
        apply strInfix_appR; apply strInfix_appR
        apply strInfix_appL
        exact occursObjectFL_inParams _ hin
      unfold generateAssembled
      apply strInfix_appR; apply strInfix_appR; apply strInfix_appR
      apply strInfix_appR; apply strInfix_appR; apply strInfix_appR
      apply strInfix_appR; apply strInfix_appR; apply strInfix_appR
      apply strInfix_appR
      apply strInfix_appL
      unfold clientSection
      apply strInfix_appL
      exact strInfix_strConcat m.methods
        (fun mm => clientCall m.name mm ++ clientRead mm) mm hmm
        (strInfix_appR _ h2)
    · have h2 : strInfix "json.RawMessage" (clientRead mm) := by
        unfold clientRead
        apply strInfix_appR; apply strInfix_appR; apply strInfix_appR
        apply strInfix_appR; apply strInfix_appR
        apply strInfix_appL
        exact occursObjectFL_outPtrParams _ hout
      unfold generateAssembled
      apply strInfix_appR; apply strInfix_appR; apply strInfix_appR
      apply strInfix_appR; apply strInfix_appR; apply strInfix_appR
      apply strInfix_appR; apply strInfix_appR; apply strInfix_appR
      apply strInfix_appR
      apply strInfix_appL
      unfold clientSection
      apply strInfix_appL
      exact strInfix_strConcat m.methods
        (fun mm => clientCall m.name mm ++ clientRead mm) mm hmm
        (strInfix_appL _ h2)
  · have h2 : strInfix "json.RawMessage" (replyErrorMethod m.name e) := by
      unfold replyErrorMethod
      apply strInfix_appR; apply strInfix_appR; apply strInfix_appR
      apply strInfix_appL
      exact occursObjectFL_replyParams _ hobj
    unfold generateAssembled
    apply strInfix_appR; apply strInfix_appR; apply strInfix_appR
    apply strInfix_appR; apply strInfix_appR; apply strInfix_appR
    apply strInfix_appR
    apply strInfix_appL
    unfold errorSection
    apply strInfix_appL
    exact strInfix_strConcat m.errors (replyErrorMethod m.name) e he h2

theorem replaceFirstAux_contains (pat repl sub : List Char)
    (hsub : sub <:+: repl) :
    ∀ l : List Char, pat <:+: l → pat ≠ [] →
      sub <:+: replaceFirstAux pat repl l
  | [], h, hne => by
      rcases h with ⟨s, t, hst⟩
      rcases List.append_eq_nil.mp hst with ⟨hs, ht⟩
      exact absurd (List.append_eq_nil.mp hs).2 hne
  | c :: rest, h, hne => by
      unfold replaceFirstAux
      by_cases hp : pat.isPrefixOf (c :: rest) = true
      · simp only [hp, if_true]
        exact hsub.trans (List.prefix_append _ _).isInfix
      · simp only [hp, if_false]
        have h' : pat <:+: rest := by
          rcases List.infix_cons_iff.mp h with hpre | hinf
          · exact absurd (List.isPrefixOf_iff_prefix.mpr hpre) (by simpa using hp)
          · exact hinf
        exact (replaceFirstAux_contains pat repl sub hsub rest h' hne).trans
          (List.suffix_cons c _).isInfix

theorem imports_placeholder_in_assembled (m : IDL) :
    strInfix "@IMPORTS@" (generateAssembled m) := by
  unfold generateAssembled
  apply strInfix_appR; apply strInfix_appR; apply strInfix_appR
  apply strInfix_appR; apply strInfix_appR; apply strInfix_appR
  apply strInfix_appR; apply strInfix_appR; apply strInfix_appR
  apply strInfix_appR; apply strInfix_appR; apply strInfix_appR
  unfold headerSection
  apply strInfix_appL
  show ("@IMPORTS@" : String).data <:+: ("@IMPORTS@\n\n" : String).data
  decide

/-- C1 (amended): the generated text carries the additional
`encoding/json` import exactly when the assembled text contains the
substring `json.RawMessage`.  Every model with an Object-kind field (or alias)
anywhere does contain it and therefore gets the import; but the condition
is a substring test on the whole assembled text, so it can also fire
without any Object field (e.g. when the verbatim-embedded description
mentions `json.RawMessage`); a model whose assembled text lacks the
substring gets only the plain transport import. -/
theorem object_field_json_import (midl : IDL) :
    (modelHasObjectField midl = true →
      containsStr (generateAssembled midl) "json.RawMessage" = true ∧
      retString midl =
        replaceFirst (generateAssembled midl) "@IMPORTS@" jsonImportsStr ∧
      containsStr (retString midl) "encoding/json" = true)
    ∧ (containsStr (generateAssembled midl) "json.RawMessage" = false →
      retString midl =
        replaceFirst (generateAssembled midl) "@IMPORTS@" plainImportsStr) := by
  constructor
  · intro h
    have hi : strInfix "json.RawMessage" (generateAssembled midl) :=
      modelHasObject_assembled midl h
    have hc : containsStr (generateAssembled midl) "json.RawMessage" = true := by
      unfold containsStr
      exact decide_eq_true hi
    have hret : retString midl =
        replaceFirst (generateAssembled midl) "@IMPORTS@" jsonImportsStr := by
      simp [retString, hc]
    refine ⟨hc, hret, ?_⟩
    have hrep : strInfix "encoding/json"
        (replaceFirst (generateAssembled midl) "@IMPORTS@" jsonImportsStr) := by
      show ("encoding/json" : String).data <:+:
        (replaceFirstAux ("@IMPORTS@" : String).data jsonImportsStr.data
          (generateAssembled midl).data)
      exact replaceFirstAux_contains _ _ _
        (by decide) _ (imports_placeholder_in_assembled midl) (by decide)
    rw [hret]
    unfold containsStr
    exact decide_eq_true hrep
  · intro h
    simp [retString, h]

/-- Witness for C1 (amended): a concrete model with an Object-kind input
field gets the `encoding/json` import. -/
theorem object_field_json_import_witness :
    containsStr (retString
      { name := "a.b", description := "d", aliases := [],
        methods := [{ name := "M", In := .tstruct (.cons "o" .tobject .nil),
                      Out := .tstruct .nil }], errors := [] })
      "encoding/json" = true := by
  have h := (object_field_json_import
    { name := "a.b", description := "d", aliases := [],
      methods := [{ name := "M", In := .tstruct (.cons "o" .tobject .nil),
                    Out := .tstruct .nil }], errors := [] }).1 (by decide)
  exact h.2.2

/-- A model with no Object-kind field anywhere whose description (raw IDL
text, embedded verbatim) mentions `json.RawMessage` in a comment. -/
def jsonCommentIDL : IDL :=
  { name := "a.b",
    description := "# json.RawMessage\ninterface a.b",
    aliases := [], methods := [], errors := [] }

/-- C1 counterexample: the import condition is not an "if and only if" over
Object-kind fields — this model has no Object-kind field, yet the generated
text receives the `encoding/json` import, because the substring test also
sees the verbatim-embedded description. -/
theorem no_object_field_but_json_import :
    modelHasObjectField jsonCommentIDL = false ∧
    containsStr (retString jsonCommentIDL) "encoding/json" = true := by
  constructor
  · rfl
  · have hdesc : strInfix "json.RawMessage" jsonCommentIDL.description := by
      show ("json.RawMessage" : String).data <:+:
        ("# json.RawMessage\ninterface a.b" : String).data
      decide
    have hi : strInfix "json.RawMessage" (generateAssembled jsonCommentIDL) := by
      unfold generateAssembled
      apply strInfix_appR; apply strInfix_appR
      apply strInfix_appL
      unfold descSection
      apply strInfix_appR
      apply strInfix_appL
      exact hdesc
    have hc : containsStr (generateAssembled jsonCommentIDL)
        "json.RawMessage" = true := by
      unfold containsStr
      exact decide_eq_true hi
    have hret : retString jsonCommentIDL =
        replaceFirst (generateAssembled jsonCommentIDL) "@IMPORTS@"
          jsonImportsStr := by
      simp [retString, hc]
    have hrep : strInfix "encoding/json"
        (replaceFirst (generateAssembled jsonCommentIDL) "@IMPORTS@"
          jsonImportsStr) := by
      show ("encoding/json" : String).data <:+:
        (replaceFirstAux ("@IMPORTS@" : String).data jsonImportsStr.data
          (generateAssembled jsonCommentIDL).data)
      exact replaceFirstAux_contains _ _ _
        (by decide) _ (imports_placeholder_in_assembled jsonCommentIDL)
        (by decide)
    rw [hret]
    unfold containsStr
    exact decide_eq_true hrep

/-- Modelled from the spec: the canonical formatter (`go/format.Source`) is
an external collaborator — Go's standard library, absent from this
repository — and per the spec generation "fails with a SyntaxError-
equivalent condition if the produced text cannot be canonically formatted".
The one target-language syntax rule C9 needs is modelled here: a raw
back-quoted string literal extends exactly to the first following
backquote, so the literal opened by the description accessor's
`return ?` captures only the characters before the first backquote. -/
def rawLiteralContent (cs : List Char) : List Char :=
  cs.takeWhile (fun c => c != '`')

/-- A valid model whose description (raw IDL text with a comment) contains
a backquote character. -/
def backquoteIDL : IDL :=
  { name := "a.b",
    description := "interface a.b\n# ` in a comment",
    aliases := [], methods := [], errors := [] }

/-- C9: the interface description is embedded verbatim (unescaped) between
backquotes in the generated description accessor; for a valid model whose
description contains a backquote, the raw literal therefore ends inside the
description instead of at the emitted closing backquote — the literal
cannot hold the description, the accessor text is not the intended
declaration, and (by the spec's format-failure clause, with the raw-literal
rule modelled in `rawLiteralContent`) generation fails with a format
error. -/
theorem backquoted_description_breaks_raw_literal :
    ∃ midl : IDL,
      midl.description.data.contains '`' = true ∧
      (∃ pre post, generateAssembled midl =
        pre ++ ("\treturn `" ++ midl.description ++ "\n`\n\x7d\n\n") ++ post) ∧
      rawLiteralContent (midl.description ++ "\n`").data ≠
        (midl.description ++ "\n").data := by
  refine ⟨backquoteIDL, by decide,
    ⟨headerSection (stripDots backquoteIDL.name) ++
      aliasSection backquoteIDL.aliases ++
      clientSection backquoteIDL.name backquoteIDL.methods ++
      ifaceSection (stripDots backquoteIDL.name) backquoteIDL.methods ++
      wrapperSection ++
      errorSection backquoteIDL.name backquoteIDL.errors ++
      replySection backquoteIDL.methods ++
      stubSection backquoteIDL.methods ++
      dispatchSection (stripDots backquoteIDL.name) backquoteIDL.methods ++
      nameSection backquoteIDL.name ++
      "// Varlink interface description\n" ++
      "func (s *VarlinkInterface) VarlinkGetDescription() string \x7b\n",
      serviceSection (stripDots backquoteIDL.name) ++
      ctorSection (stripDots backquoteIDL.name), ?_⟩,
    by decide⟩
  simp [generateAssembled, descSection, String.append_assoc]
  rfl

end VarlinkGen

